import Mathlib

/-!
# Verification of the fruitfly sampling and filtering pipelines

Shallow embedding of `src/fruitfly.py`:

* `parse_humanized_string`, `detect_humanized_number` — the size-hint parser
  (lines 13–37), with Python's `re.search` for the pattern
  `[-+]?(?:\d*\.*\d+)[kKmMbB]` embedded as an explicit backtracking matcher,
  and Python `float`/`int` conversion embedded over exact rationals
  (every value reached in this development is exactly representable
  in binary64, so exact rational arithmetic agrees with Python floats).
* `sample_bz2` — the stride sampler (lines 60–74), with the decompressed
  source given as a list of lines and `random.randrange` given an explicit
  stream of draws (`draws i` is the `i`-th raw draw; `randrange n` reduces
  it modulo `n`, and raises on an empty range exactly as Python does).
* `bloom_match`, `find_matches` — the membership filter and fan-out
  coordinator (lines 82–156).  The bloom filter is the documented external
  black box, embedded as an abstract membership function per path;
  `mp.Pool.map` returns results in input order, so the pool fan-out is
  embedded as a sequential `List.map`; the Python `dict` is embedded as an
  association list with insertion-order update semantics (`dictUpdate`).

Characters are handled in the ASCII range (the inputs of interest are
ASCII); `pyIsDigit`, `pyUpper`, `pyIsSpace` model `str` behaviour there.
-/

namespace Fruitfly

/-! ## Character-level models of Python `str` primitives (ASCII range) -/

/-- ASCII decimal digit, the characters matched by `\d` on ASCII input. -/
def pyIsDigit (c : Char) : Bool := decide (48 ≤ c.toNat ∧ c.toNat ≤ 57)

/-- ASCII whitespace as stripped by Python `str.strip`. -/
def pyIsSpace (c : Char) : Bool :=
  decide (c.toNat = 32 ∨ c.toNat = 9 ∨ c.toNat = 10 ∨ c.toNat = 13 ∨
    c.toNat = 11 ∨ c.toNat = 12)

/-- Python `str.upper` on one ASCII character. -/
def pyUpper (c : Char) : Char :=
  if 97 ≤ c.toNat ∧ c.toNat ≤ 122 then Char.ofNat (c.toNat - 32) else c

/-- Python `str.strip()`: drop whitespace from both ends. -/
def pyStrip (cs : List Char) : List Char :=
  ((cs.dropWhile pyIsSpace).reverse.dropWhile pyIsSpace).reverse

/-! ## Error kinds raised by the embedded code

Each constructor stands for a distinct `ValueError` (or error site) of the
source: the two documented size-hint errors, the undocumented `ValueError`
escaping `float()`, the `randrange` empty-range error, division by zero,
and the empty-glob error of `find_matches`. -/

inductive PyErr where
  /-- `ValueError("No numeric humanized expression found in string.")` -/
  | notFoundError : PyErr
  /-- `ValueError("Invalid humanized string format")` -/
  | formatError : PyErr
  /-- the `ValueError` raised by `float()` itself, uncaught by the source -/
  | floatValueError : PyErr
  /-- `ValueError("empty range for randrange()")` -/
  | emptyRangeError : PyErr
  /-- `ZeroDivisionError` -/
  | zeroDivisionError : PyErr
  /-- `ValueError("No bloom filters found using the glob expression: ...")` -/
  | emptyInputError : PyErr
deriving DecidableEq

/-! ## Numeric string conversion (`float`, `int`) over exact rationals -/

/-- Value of a digit string (most significant first). -/
def digitsVal (ds : List Char) : ℕ :=
  ds.foldl (fun a c => 10 * a + (c.toNat - 48)) 0

/-- An exact decimal value: `(m, e)` denotes `m / 10 ^ e`.  Python floats
are modelled by exact decimals; every value reached in this development is
exactly representable in binary64, so the model agrees with Python. -/
abbrev Dec10 := ℤ × ℕ

/-- The unsigned part of Python's `float` literal grammar restricted to
what is reachable here: digits with at most one decimal point
(`d+`, `d+.d*`, `d*.d+`); exponents, `inf`/`nan` and underscores are not
reachable from the call sites and are not modelled. -/
def parseMagnitude (cs : List Char) : Option Dec10 :=
  match cs.dropWhile pyIsDigit with
  | [] =>
    if (cs.takeWhile pyIsDigit).isEmpty then none
    else some ((digitsVal (cs.takeWhile pyIsDigit) : ℤ), 0)
  | c :: frac =>
    if c = '.' ∧ frac.all pyIsDigit ∧
        ¬((cs.takeWhile pyIsDigit).isEmpty ∧ frac.isEmpty) then
      some ((digitsVal (cs.takeWhile pyIsDigit) * 10 ^ frac.length +
        digitsVal frac : ℤ), frac.length)
    else none

/-- Python `float(s)`: strip, optional sign, magnitude. -/
def pythonFloat (cs : List Char) : Option Dec10 :=
  match pyStrip cs with
  | [] => none
  | c :: r =>
    if c = '-' then (parseMagnitude r).map (fun d => (-d.1, d.2))
    else if c = '+' then parseMagnitude r
    else parseMagnitude (c :: r)

/-- Python `int(s)` on a string: strip, optional sign, nonempty digits. -/
def pythonInt (cs : List Char) : Option ℤ :=
  let t := pyStrip cs
  match t with
  | [] => none
  | c :: r =>
    if c = '-' then
      if r ≠ [] ∧ r.all pyIsDigit then some (-(digitsVal r : ℤ)) else none
    else if c = '+' then
      if r ≠ [] ∧ r.all pyIsDigit then some ((digitsVal r : ℤ)) else none
    else if (c :: r).all pyIsDigit then some ((digitsVal (c :: r) : ℤ)) else none

/-- Python `int(x)` on a float: truncation toward zero,
on the exact decimal `m / 10 ^ e`. -/
def pyTrunc (d : Dec10) : ℤ :=
  if d.1 < 0 then -(((-d.1).toNat / 10 ^ d.2 : ℕ) : ℤ)
  else (((d.1.toNat / 10 ^ d.2 : ℕ) : ℤ))

/-! ## `parse_humanized_string` (source lines 13–27) -/

/-- The `multipliers` dict of the source, in insertion order. -/
def multipliers : List (Char × ℤ) :=
  [('K', 1000), ('M', 1000000), ('B', 1000000000)]

/-- The `for suffix, multiplier in multipliers.items()` loop: on the first
suffix match, convert `float(s[:-1]) * multiplier` to int; an error raised
by `float` escapes (it is not caught by the source). -/
def suffixLoop (s : List Char) : List (Char × ℤ) → Option (Except PyErr ℤ)
  | [] => none
  | (suf, mult) :: restMults =>
    if s.getLast? = some suf then
      some (match pythonFloat s.dropLast with
        | some d => Except.ok (pyTrunc (d.1 * mult, d.2))
        | none => Except.error PyErr.floatValueError)
    else suffixLoop s restMults

/-- `parse_humanized_string` (lines 13–27): strip and uppercase, try the
suffix loop, otherwise attempt a direct `int` parse, else
`ValueError("Invalid humanized string format")`. -/
def parse_humanized_string (cs : List Char) : Except PyErr ℤ :=
  match suffixLoop ((pyStrip cs).map pyUpper) multipliers with
  | some r => r
  | none =>
    match pythonInt ((pyStrip cs).map pyUpper) with
    | some n => Except.ok n
    | none => Except.error PyErr.formatError

/-! ## `detect_humanized_number` (source lines 29–37)

`re.search(r"[-+]?(?:\d*\.*\d+)[kKmMbB]", s)` embedded as Python's
backtracking engine: leftmost starting position first; at a position the
optional sign is tried consumed-first, and each of `\d*`, `\.*`, `\d+`
tries its longest extent first. -/

/-- The character class `[kKmMbB]`. -/
def isSuffixChar (c : Char) : Bool :=
  decide (c = 'k' ∨ c = 'K' ∨ c = 'm' ∨ c = 'M' ∨ c = 'b' ∨ c = 'B')

/-- `[n, n-1, ..., 0]`: the extents of a greedy `*` in preference order. -/
def descRange (n : ℕ) : List ℕ := (List.range (n + 1)).reverse

/-- `[n, n-1, ..., 1]`: the extents of a greedy `+` in preference order. -/
def descRangePos (n : ℕ) : List ℕ := (List.range n).reverse.map (· + 1)

/-- Length of the maximal digit run at the front. -/
def digitRun (cs : List Char) : ℕ := (cs.takeWhile pyIsDigit).length

/-- Length of the maximal `.` run at the front. -/
def dotRun (cs : List Char) : ℕ := (cs.takeWhile (fun c => decide (c = '.'))).length

/-- Match `(?:\d*\.*\d+)[kKmMbB]` at the start of `cs`, returning the
matched characters chosen by the backtracking order. -/
def coreMatch (cs : List Char) : Option (List Char) :=
  (descRange (digitRun cs)).findSome? fun a =>
    (descRange (dotRun (cs.drop a))).findSome? fun b =>
      (descRangePos (digitRun ((cs.drop a).drop b))).findSome? fun c =>
        match ((cs.drop a).drop b).drop c with
        | suf :: _ =>
          if isSuffixChar suf then
            some (cs.take a ++ (cs.drop a).take b ++
              ((cs.drop a).drop b).take c ++ [suf])
          else none
        | [] => none

/-- Match the full pattern anchored at the start of `cs`: `[-+]?` consumes
a present sign first and retries unconsumed on failure. -/
def matchHere (cs : List Char) : Option (List Char) :=
  match cs with
  | [] => coreMatch []
  | c :: rest =>
    if c = '-' ∨ c = '+' then
      match coreMatch rest with
      | some core => some (c :: core)
      | none => coreMatch (c :: rest)
    else coreMatch (c :: rest)

/-- `re.search`: try each start position left to right. -/
def reSearch : List Char → Option (List Char)
  | [] => matchHere []
  | c :: rest =>
    match matchHere (c :: rest) with
    | some tok => some tok
    | none => reSearch rest

/-- `detect_humanized_number` (lines 29–37): the first match of the regex,
or `ValueError("No numeric humanized expression found in string.")`. -/
def detect_humanized_number (s : List Char) : Except PyErr (List Char) :=
  match reSearch s with
  | some tok => Except.ok tok
  | none => Except.error PyErr.notFoundError

/-- The composition used by `sample_bz2` line 60:
`parse_humanized_string(detect_humanized_number(file_path))`. -/
def extractSizeHint (s : List Char) : Except PyErr ℤ :=
  match detect_humanized_number s with
  | Except.error e => Except.error e
  | Except.ok tok => parse_humanized_string tok

/-! ## `sample_bz2` (source lines 42–74)

The decompressed source is the list of its lines; `random.randrange` is
given the stream of raw draws (`draws i` for the `i`-th line); uniformity
of a draw in `[0, n)` is `draws i % n`.  `random.randrange(0)` raises
`ValueError: empty range for randrange()`, exactly as in Python. -/

/-- `random.randrange(n)` fed by the raw draw `draw`. -/
def randrange (n : ℕ) (draw : ℕ) : Except PyErr ℕ :=
  if n = 0 then Except.error PyErr.emptyRangeError else Except.ok (draw % n)

/-- The `for aline in afile` loop of lines 68–71: skip the line when the
draw is nonzero (truthy), append it when the draw is `0`. -/
def sampleLoop (num : ℕ) (draws : ℕ → ℕ) :
    List (List Char) → ℕ → Except PyErr (List (List Char))
  | [], _ => Except.ok []
  | l :: ls, i =>
    match randrange num (draws i) with
    | Except.error e => Except.error e
    | Except.ok d =>
      match sampleLoop num draws ls (i + 1) with
      | Except.error e => Except.error e
      | Except.ok rest => Except.ok (if d = 0 then l :: rest else rest)

/-- `sample_bz2` lines 65–74 with the parsed size hint passed in:
`total_lines` is the hint, `num_lines` the target count, and
`num = int(total_lines/num_lines)` is floor division on naturals
(the Python float division is exact on the magnitudes involved). -/
def sample_bz2 (lines : List (List Char)) (num_lines total_lines : ℕ)
    (draws : ℕ → ℕ) : Except PyErr (List (List Char)) :=
  if num_lines = 0 then Except.error PyErr.zeroDivisionError
  else sampleLoop (total_lines / num_lines) draws lines 0

/-- Specification-side description of the admitted lines: line `i` is kept
exactly when its draw reduced into `[0, num)` is `0`. -/
def admitted (num : ℕ) (draws : ℕ → ℕ) : List (List Char) → ℕ → List (List Char)
  | [], _ => []
  | l :: ls, i =>
    if draws i % num = 0 then l :: admitted num draws ls (i + 1)
    else admitted num draws ls (i + 1)

/-! ## `bloom_match` (source lines 82–111)

The `molbloom.BloomFilter` is the documented external black box with a
`contains` contract; it is embedded as an abstract membership function
`mem : String → Bool` obtained from the filter file. -/

/-- The final path component (after the last `/`). -/
def pyBaseName (p : List Char) : List Char :=
  (p.reverse.takeWhile (fun c => decide (c ≠ '/'))).reverse

/-- `pathlib.Path(p).stem`: the final component without its suffix; a dot
at position 0 of the name starts no suffix. -/
def pyStemL (p : List Char) : List Char :=
  let n := pyBaseName p
  let r := n.reverse
  match r.dropWhile (fun c => decide (c ≠ '.')) with
  | [] => n
  | _ :: rest => if rest = [] then n else rest.reverse

/-- `Path(p).stem` on strings. -/
def pyStem (p : String) : String := (pyStemL p.toList).asString

/-- The `for smile in smiles_iterable` loop of lines 104–106. -/
def matchLoop (mem : String → Bool) : List String → List String
  | [] => []
  | s :: rest => if mem s then s :: matchLoop mem rest else matchLoop mem rest

/-- `bloom_match` (lines 82–111): the `{base_name: results}` dict is the
pair (identity, matched subsequence). -/
def bloom_match (mem : String → Bool) (bloom_file : String)
    (smiles_iterable : List String) : String × List String :=
  (pyStem bloom_file, matchLoop mem smiles_iterable)

/-! ## `find_matches` (source lines 119–156)

`mp.Pool.map` returns one result per input path, in input order, so the
pool fan-out is a sequential `List.map`.  The Python `dict` is an
association list: `dictUpdate` keeps the position of an existing key and
overwrites its value, and appends a new key at the end — insertion-order
semantics of `dict.update`. -/

/-- `d[k] = v` / `d.update({k: v})` on an insertion-ordered dict. -/
def dictUpdate (d : List (String × List String)) (k : String) (v : List String) :
    List (String × List String) :=
  if d.any (fun kv => decide (kv.1 = k)) then
    d.map (fun kv => if kv.1 = k then (k, v) else kv)
  else d ++ [(k, v)]

/-- `d.get(k)`: value at the key, if present. -/
def dictLookup (d : List (String × List String)) (k : String) : Option (List String) :=
  (d.find? (fun kv => decide (kv.1 = k))).map Prod.snd

/-- The reserved key of line 146. -/
def unmatchedKey : String := "unmatched"

/-- `find_matches` (lines 119–156).  `memOf p` is the membership function
of the bloom filter loaded from path `p`; `filter_files` is the expansion
of the glob.  Returns the list of dispatched task paths together with the
outcome; the `.ok` payload is the dict written to the output JSON file
(nothing is written on error). -/
def find_matches (memOf : String → String → Bool) (filter_files : List String)
    (smiles : List String) (include_unmatched : Bool) :
    List String × Except PyErr (List (String × List String)) :=
  if filter_files.isEmpty then ([], Except.error PyErr.emptyInputError)
  else
    let results := filter_files.map fun f => bloom_match (memOf f) f smiles
    let d := results.foldl (fun acc kv => dictUpdate acc kv.1 kv.2) []
    if include_unmatched then
      let d1 := dictUpdate d unmatchedKey []
      let matched := (d1.map Prod.snd).flatten
      let um := smiles.filter fun s => !(decide (s ∈ matched))
      (filter_files, Except.ok (dictUpdate d1 unmatchedKey um))
    else (filter_files, Except.ok d)

/-! ## Specification-side predicates for the regex claims -/

/-- `t` occurs as a contiguous substring of `s`. -/
def OccursIn (t s : List Char) : Prop := ∃ pre post, s = pre ++ t ++ post

/-- An optional sign, as in `[-+]?`. -/
def IsSignOpt (sgn : List Char) : Prop := sgn = [] ∨ sgn = ['-'] ∨ sgn = ['+']

/-- `t` matches the full pattern
`(optional sign)(digits, optionally with one run of dots)(K|M|B
case-insensitive)` — the language of `[-+]?(?:\d*\.*\d+)[kKmMbB]`. -/
def MatchesPattern (t : List Char) : Prop :=
  ∃ sgn d1 dots d2 suf,
    t = sgn ++ d1 ++ dots ++ d2 ++ [suf] ∧ IsSignOpt sgn ∧
    (∀ c ∈ d1, pyIsDigit c = true) ∧ (∀ c ∈ dots, c = '.') ∧
    d2 ≠ [] ∧ (∀ c ∈ d2, pyIsDigit c = true) ∧ isSuffixChar suf = true

/-- Executable test for membership in the language of
`(?:\d*\.*\d+)` followed by nothing. -/
def bodyB (b : List Char) : Bool :=
  if (b.dropWhile pyIsDigit).isEmpty then !b.isEmpty
  else
    (!((b.dropWhile pyIsDigit).takeWhile (fun c => decide (c = '.'))).isEmpty) &&
      (!((b.dropWhile pyIsDigit).dropWhile (fun c => decide (c = '.'))).isEmpty) &&
      ((b.dropWhile pyIsDigit).dropWhile (fun c => decide (c = '.'))).all pyIsDigit

/-- Executable test: `t` is `body ++ [suffix]` with `body` in the core
language. -/
def coreB (t : List Char) : Bool :=
  match t.getLast? with
  | some suf => isSuffixChar suf && bodyB t.dropLast
  | none => false

/-- Executable test for the full pattern language. -/
def matchesPatternB (t : List Char) : Bool :=
  match t with
  | [] => false
  | c :: rest => if c = '-' ∨ c = '+' then coreB rest else coreB (c :: rest)

/-- Executable test that no substring of `s` matches the pattern. -/
def noMatchSubB (s : List Char) : Bool :=
  (List.range (s.length + 1)).all fun i =>
    (List.range (s.length + 1)).all fun j =>
      !matchesPatternB ((s.drop i).take j)

deriving instance DecidableEq for Except

/-! ## Lemmas about the sampler loop -/

theorem sampleLoop_eq_admitted (num : ℕ) (hnum : num ≠ 0) (draws : ℕ → ℕ) :
    ∀ (lines : List (List Char)) (i : ℕ),
      sampleLoop num draws lines i = Except.ok (admitted num draws lines i) := by
  intro lines
  induction lines with
  | nil => intro i; rfl
  | cons l ls ih =>
    intro i
    simp only [sampleLoop, randrange, hnum, if_false, ih (i + 1), admitted]

theorem admitted_sublist (num : ℕ) (draws : ℕ → ℕ) :
    ∀ (lines : List (List Char)) (i : ℕ), (admitted num draws lines i).Sublist lines := by
  intro lines
  induction lines with
  | nil => intro i; simp [admitted]
  | cons l ls ih =>
    intro i
    by_cases h : draws i % num = 0
    · simpa [admitted, h] using List.Sublist.cons₂ l (ih (i + 1))
    · simpa [admitted, h] using List.Sublist.cons l (ih (i + 1))

/-! ## Claim C1 (corrected) -/

/-- C1, counterexample: with size hint 1 and target count 2 the stride is
`⌊1/2⌋ = 0 < 1`, and on a one-line source the call does **not** return
every line: it raises `ValueError: empty range for randrange()`. -/
theorem c1_counterexample :
    (1 : ℕ) / 2 = 0 ∧
    sample_bz2 [['x']] 2 1 (fun _ => 0) ≠ Except.ok [['x']] ∧
    sample_bz2 [['x']] 2 1 (fun _ => 0) = Except.error PyErr.emptyRangeError := by
  decide

/-- C1, amended: for every source with at least one line, size hint and
target count with `⌊size_hint / target_count⌋ < 1`, the call fails with the
empty-range `randrange` error instead of returning every line; the stride
is not treated as 1. -/
theorem c1_theorem (lines : List (List Char)) (num_lines total_lines : ℕ)
    (draws : ℕ → ℕ) (h1 : 0 < num_lines) (h2 : total_lines / num_lines = 0)
    (h3 : lines ≠ []) :
    sample_bz2 lines num_lines total_lines draws = Except.error PyErr.emptyRangeError := by
  match lines, h3 with
  | l :: ls, _ =>
    simp [sample_bz2, Nat.pos_iff_ne_zero.mp h1, h2, sampleLoop, randrange]

/-- C1, witness at a concrete input. -/
theorem c1_witness :
    0 < 2 ∧ (1 : ℕ) / 2 = 0 ∧ ([['y'], ['z']] : List (List Char)) ≠ [] ∧
      sample_bz2 [['y'], ['z']] 2 1 (fun i => i) = Except.error PyErr.emptyRangeError :=
  ⟨by decide, by decide, by decide,
    c1_theorem [['y'], ['z']] 2 1 (fun i => i) (by decide) (by decide) (by decide)⟩

/-! ## Claim C2 (confirmed) -/

/-- C2: for every source and stride `⌊size_hint/target_count⌋ ≥ 1`,
sampling succeeds and returns exactly the lines whose uniform draw in
`[0, stride)` is `0`, as a subsequence of the source in original order
(no reordering, no duplicated positions) of length at most the number of
source lines. -/
theorem c2_theorem (lines : List (List Char)) (num_lines total_lines : ℕ)
    (draws : ℕ → ℕ) (h1 : 0 < num_lines) (h2 : 1 ≤ total_lines / num_lines) :
    sample_bz2 lines num_lines total_lines draws =
      Except.ok (admitted (total_lines / num_lines) draws lines 0) ∧
    (admitted (total_lines / num_lines) draws lines 0).Sublist lines ∧
    (admitted (total_lines / num_lines) draws lines 0).length ≤ lines.length := by
  have hnum : total_lines / num_lines ≠ 0 := Nat.pos_iff_ne_zero.mp h2
  refine ⟨?_, admitted_sublist _ draws lines 0,
    (admitted_sublist _ draws lines 0).length_le⟩
  simp [sample_bz2, Nat.pos_iff_ne_zero.mp h1,
    sampleLoop_eq_admitted _ hnum draws lines 0]

/-- C2, witness at a concrete input: hint 4, target 2, stride 2,
draws `0, 1, 2` keep lines 0 and 2. -/
theorem c2_witness :
    0 < 2 ∧ 1 ≤ (4 : ℕ) / 2 ∧
    (sample_bz2 [['a'], ['b'], ['c']] 2 4 (fun i => i) =
        Except.ok (admitted ((4 : ℕ) / 2) (fun i => i) [['a'], ['b'], ['c']] 0) ∧
      (admitted ((4 : ℕ) / 2) (fun i => i) [['a'], ['b'], ['c']] 0).Sublist
        [['a'], ['b'], ['c']] ∧
      (admitted ((4 : ℕ) / 2) (fun i => i) [['a'], ['b'], ['c']] 0).length ≤
        ([['a'], ['b'], ['c']] : List (List Char)).length) :=
  ⟨by decide, by decide,
    c2_theorem [['a'], ['b'], ['c']] 2 4 (fun i => i) (by decide) (by decide)⟩

/-! ## Claim C3 (corrected) -/

/-- C3, counterexample: on the token `"42"` extraction does not yield 42 —
the detector's regex requires a `K`/`M`/`B` suffix, so extraction fails
with the not-found error. -/
theorem c3_counterexample :
    extractSizeHint "42".toList ≠ Except.ok 42 ∧
    detect_humanized_number "42".toList = Except.error PyErr.notFoundError := by
  decide

/-- C3, amended: extraction followed by numeric conversion yields 128000,
5000000 and 2000000000 on `"128K"`, `"5M"` and `"2B"`; on `"42"` extraction
fails with the not-found error (a bare integer is accepted only by the
conversion step itself, which maps `"42"` to 42). -/
theorem c3_theorem :
    extractSizeHint "128K".toList = Except.ok 128000 ∧
    extractSizeHint "5M".toList = Except.ok 5000000 ∧
    extractSizeHint "2B".toList = Except.ok 2000000000 ∧
    extractSizeHint "42".toList = Except.error PyErr.notFoundError ∧
    parse_humanized_string "42".toList = Except.ok 42 := by
  decide

/-! ## Lemmas about the membership filter loop -/

theorem matchLoop_eq_filter (mem : String → Bool) :
    ∀ qs : List String, matchLoop mem qs = qs.filter mem := by
  intro qs
  induction qs with
  | nil => rfl
  | cons s rest ih =>
    by_cases h : mem s <;> simp [matchLoop, h, List.filter_cons, ih]

theorem matchLoop_sublist (mem : String → Bool) (qs : List String) :
    (matchLoop mem qs).Sublist qs := by
  rw [matchLoop_eq_filter]; exact List.filter_sublist qs

theorem mem_matchLoop (mem : String → Bool) (qs : List String) (q : String) :
    q ∈ matchLoop mem qs ↔ q ∈ qs ∧ mem q = true := by
  rw [matchLoop_eq_filter]; exact List.mem_filter

theorem matchLoop_count (mem : String → Bool) (qs : List String) (q : String) :
    (matchLoop mem qs).count q = if mem q then qs.count q else 0 := by
  induction qs with
  | nil => by_cases h : mem q <;> simp [matchLoop, h]
  | cons s rest ih =>
    by_cases hs : mem s <;> by_cases hq : q = s <;>
      simp_all [matchLoop, List.count_cons, ih]

/-! ## Lemmas about the insertion-ordered dict -/

theorem find?_append_none (p : String × List String → Bool) :
    ∀ l₁ l₂ : List (String × List String),
      l₁.find? p = none → (l₁ ++ l₂).find? p = l₂.find? p := by
  intro l₁
  induction l₁ with
  | nil => intro l₂ _; rfl
  | cons x xs ih =>
    intro l₂ h
    by_cases hx : p x = true
    · rw [List.find?_cons_of_pos _ hx] at h; exact absurd h (by simp)
    · rw [List.find?_cons_of_neg _ hx] at h
      rw [List.cons_append, List.find?_cons_of_neg _ hx, ih l₂ h]

theorem find?_append_some (p : String × List String → Bool) :
    ∀ (l₁ l₂ : List (String × List String)) (a : String × List String),
      l₁.find? p = some a → (l₁ ++ l₂).find? p = some a := by
  intro l₁
  induction l₁ with
  | nil => intro l₂ a h; exact absurd h (by simp)
  | cons x xs ih =>
    intro l₂ a h
    by_cases hx : p x = true
    · rw [List.find?_cons_of_pos _ hx] at h
      rw [List.cons_append, List.find?_cons_of_pos _ hx]; exact h
    · rw [List.find?_cons_of_neg _ hx] at h
      rw [List.cons_append, List.find?_cons_of_neg _ hx, ih l₂ a h]

theorem find?_map_update (k : String) (v : List String) :
    ∀ d : List (String × List String),
      d.any (fun kv => decide (kv.1 = k)) = true →
      (d.map (fun kv => if kv.1 = k then (k, v) else kv)).find?
          (fun kv => decide (kv.1 = k)) = some (k, v) := by
  intro d
  induction d with
  | nil => intro h; exact absurd h (by simp)
  | cons x xs ih =>
    intro h
    rw [List.map_cons]
    by_cases hx : x.1 = k
    · rw [if_pos hx, List.find?_cons_of_pos _ (by simp)]
    · have hxs : xs.any (fun kv => decide (kv.1 = k)) = true := by
        rcases List.any_eq_true.mp h with ⟨y, hy, hpy⟩
        rcases List.mem_cons.mp hy with rfl | hy'
        · exact absurd (of_decide_eq_true hpy) hx
        · exact List.any_eq_true.mpr ⟨y, hy', hpy⟩
      rw [if_neg hx, List.find?_cons_of_neg _ (by simp [hx]), ih hxs]

theorem find?_map_update_ne (k : String) (v : List String) (k' : String)
    (hne : k' ≠ k) :
    ∀ d : List (String × List String),
      (d.map (fun kv => if kv.1 = k then (k, v) else kv)).find?
          (fun kv => decide (kv.1 = k')) =
        d.find? (fun kv => decide (kv.1 = k')) := by
  intro d
  induction d with
  | nil => rfl
  | cons x xs ih =>
    rw [List.map_cons]
    by_cases hx : x.1 = k
    · rw [if_pos hx, List.find?_cons_of_neg _ (by simp [Ne.symm hne]),
        List.find?_cons_of_neg _ (by simp [hx, Ne.symm hne]), ih]
    · rw [if_neg hx]
      by_cases hx' : x.1 = k'
      · rw [List.find?_cons_of_pos _ (by simp [hx']),
          List.find?_cons_of_pos _ (by simp [hx'])]
      · rw [List.find?_cons_of_neg _ (by simp [hx']),
          List.find?_cons_of_neg _ (by simp [hx']), ih]

theorem dictLookup_update_self (d : List (String × List String)) (k : String)
    (v : List String) : dictLookup (dictUpdate d k v) k = some v := by
  unfold dictUpdate dictLookup
  by_cases h : d.any (fun kv => decide (kv.1 = k)) = true
  · rw [if_pos h, find?_map_update k v d h]; rfl
  · have hnone : d.find? (fun kv => decide (kv.1 = k)) = none := by
      rw [List.find?_eq_none]
      intro x hx hsat
      exact h (List.any_eq_true.mpr ⟨x, hx, hsat⟩)
    rw [if_neg h, find?_append_none _ _ _ hnone,
      List.find?_cons_of_pos _ (by simp)]
    rfl

theorem dictLookup_update_ne (d : List (String × List String)) (k : String)
    (v : List String) (k' : String) (hne : k' ≠ k) :
    dictLookup (dictUpdate d k v) k' = dictLookup d k' := by
  unfold dictUpdate dictLookup
  by_cases h : d.any (fun kv => decide (kv.1 = k)) = true
  · rw [if_pos h, find?_map_update_ne k v k' hne d]
  · rw [if_neg h]
    cases hfind : d.find? (fun kv => decide (kv.1 = k')) with
    | some a => rw [find?_append_some _ _ _ _ hfind]
    | none =>
      rw [find?_append_none _ _ _ hfind,
        List.find?_cons_of_neg _ (by simp [Ne.symm hne]), List.find?_nil]

theorem mem_dictUpdate (x : String × List String) (d : List (String × List String))
    (k : String) (v : List String) :
    x ∈ dictUpdate d k v → x ∈ d ∨ x = (k, v) := by
  unfold dictUpdate
  by_cases h : d.any (fun kv => decide (kv.1 = k)) = true
  · rw [if_pos h]
    intro hx
    obtain ⟨y, hy, hyx⟩ := List.mem_map.mp hx
    by_cases hk : y.1 = k
    · right; rw [← hyx, if_pos hk]
    · left; rw [← hyx, if_neg hk]; exact hy
  · rw [if_neg h]
    intro hx
    rcases List.mem_append.mp hx with h1 | h1
    · exact Or.inl h1
    · exact Or.inr (by simpa using h1)

theorem mem_dictUpdate_of_ne (x : String × List String)
    (d : List (String × List String)) (k : String) (v : List String)
    (hx : x.1 ≠ k) : x ∈ dictUpdate d k v ↔ x ∈ d := by
  unfold dictUpdate
  by_cases h : d.any (fun kv => decide (kv.1 = k)) = true
  · rw [if_pos h]
    constructor
    · intro hm
      obtain ⟨y, hy, hyx⟩ := List.mem_map.mp hm
      by_cases hk : y.1 = k
      · exfalso; apply hx; rw [← hyx, if_pos hk]
      · rwa [← hyx, if_neg hk]
    · intro hm
      exact List.mem_map.mpr ⟨x, hm, by rw [if_neg hx]⟩
  · rw [if_neg h]
    constructor
    · intro hm
      rcases List.mem_append.mp hm with h1 | h1
      · exact h1
      · exfalso; apply hx
        have hxkv : x = (k, v) := by simpa using h1
        rw [hxkv]
    · intro hm; exact List.mem_append.mpr (Or.inl hm)

theorem eq_of_mem_dictUpdate_key (x : String × List String)
    (d : List (String × List String)) (k : String) (v : List String) :
    x ∈ dictUpdate d k v → x.1 = k → x = (k, v) := by
  unfold dictUpdate
  by_cases h : d.any (fun kv => decide (kv.1 = k)) = true
  · rw [if_pos h]
    intro hm hk
    obtain ⟨y, hy, hyx⟩ := List.mem_map.mp hm
    by_cases hyk : y.1 = k
    · rw [← hyx, if_pos hyk]
    · exfalso; apply hyk; rw [← hk, ← hyx, if_neg hyk]
  · rw [if_neg h]
    intro hm hk
    rcases List.mem_append.mp hm with h1 | h1
    · exact absurd (List.any_eq_true.mpr ⟨x, h1, by simp [hk]⟩) h
    · simpa using h1

theorem mem_foldl_update (x : String × List String) :
    ∀ (l : List (String × List String)) (d : List (String × List String)),
      x ∈ l.foldl (fun acc kv => dictUpdate acc kv.1 kv.2) d → x ∈ d ∨ x ∈ l := by
  intro l
  induction l with
  | nil => intro d h; exact Or.inl h
  | cons y ys ih =>
    intro d h
    rcases ih (dictUpdate d y.1 y.2) h with h1 | h1
    · rcases mem_dictUpdate x d y.1 y.2 h1 with h2 | h2
      · exact Or.inl h2
      · exact Or.inr (List.mem_cons.mpr (Or.inl (by rw [h2])))
    · exact Or.inr (List.mem_cons.mpr (Or.inr h1))

theorem foldl_update_lookup (k : String) :
    ∀ (l : List (String × List String)) (d : List (String × List String)),
      dictLookup (l.foldl (fun acc kv => dictUpdate acc kv.1 kv.2) d) k =
        match l.reverse.find? (fun kv => decide (kv.1 = k)) with
        | some kv => some kv.2
        | none => dictLookup d k := by
  intro l
  induction l with
  | nil => intro d; rfl
  | cons x xs ih =>
    intro d
    rw [List.foldl_cons, ih (dictUpdate d x.1 x.2), List.reverse_cons]
    cases hfind : xs.reverse.find? (fun kv => decide (kv.1 = k)) with
    | some kv => rw [find?_append_some _ _ _ _ hfind]
    | none =>
      rw [find?_append_none _ _ _ hfind]
      by_cases hx : x.1 = k
      · show dictLookup (dictUpdate d x.1 x.2) k =
          match ([x].find? fun kv => decide (kv.1 = k)) with
          | some kv => some kv.2
          | none => dictLookup d k
        rw [List.find?_cons_of_pos _ (by simp [hx]), ← hx]
        exact dictLookup_update_self d x.1 x.2
      · show dictLookup (dictUpdate d x.1 x.2) k =
          match ([x].find? fun kv => decide (kv.1 = k)) with
          | some kv => some kv.2
          | none => dictLookup d k
        rw [List.find?_cons_of_neg _ (by simp [hx]), List.find?_nil]
        exact dictLookup_update_ne d x.1 x.2 k (fun hh => hx hh.symm)

/-! ## Claim C6 (confirmed) -/

/-- C6: for every structure path and query sequence, evaluation returns as
identity the structure file's base name without its extension, and as
matched result the subsequence of the queries (input order, duplicates
preserved — witnessed by the multiplicity equation) containing exactly
those queries the membership structure reports as members. -/
theorem c6_theorem (mem : String → Bool) (path : String) (qs : List String) :
    bloom_match mem path qs = (pyStem path, matchLoop mem qs) ∧
    (bloom_match mem path qs).2.Sublist qs ∧
    (∀ q, q ∈ (bloom_match mem path qs).2 ↔ q ∈ qs ∧ mem q = true) ∧
    (∀ q, (bloom_match mem path qs).2.count q =
      if mem q then qs.count q else 0) :=
  ⟨rfl, matchLoop_sublist mem qs, fun q => mem_matchLoop mem qs q,
    fun q => matchLoop_count mem qs q⟩

/-! ## Claim C7 (confirmed) -/

/-- C7: with `include_unmatched = true`, every query of the query set is in
some returned matched sequence or in the "unmatched" sequence and vice
versa (the set union of all matched sequences with the "unmatched"
sequence equals the query set as a set); no query is both in a matched
sequence and in "unmatched"; and the "unmatched" sequence preserves the
original query order (it is a subsequence of the query list). -/
theorem c7_theorem (memOf : String → String → Bool) (ff : List String)
    (smiles : List String) (h : ff ≠ []) :
    ∃ D, (find_matches memOf ff smiles true).2 = Except.ok D ∧
      (∀ q, q ∈ smiles ↔
        ((∃ kv, kv ∈ D ∧ kv.1 ≠ unmatchedKey ∧ q ∈ kv.2) ∨
          ∃ u, dictLookup D unmatchedKey = some u ∧ q ∈ u)) ∧
      (∀ q kv u, kv ∈ D → kv.1 ≠ unmatchedKey →
        dictLookup D unmatchedKey = some u → ¬(q ∈ kv.2 ∧ q ∈ u)) ∧
      (∃ u, dictLookup D unmatchedKey = some u ∧ u.Sublist smiles) := by
  have hff : ff.isEmpty = false := List.isEmpty_eq_false.mpr h
  obtain ⟨results, hres⟩ : ∃ r, ff.map (fun f => bloom_match (memOf f) f smiles) = r :=
    ⟨_, rfl⟩
  obtain ⟨dm, hdm⟩ : ∃ d,
      results.foldl (fun acc kv => dictUpdate acc kv.1 kv.2)
        ([] : List (String × List String)) = d := ⟨_, rfl⟩
  obtain ⟨d1, hd1⟩ : ∃ d, dictUpdate dm unmatchedKey [] = d := ⟨_, rfl⟩
  obtain ⟨matched, hmatched⟩ : ∃ m, (d1.map Prod.snd).flatten = m := ⟨_, rfl⟩
  obtain ⟨um, humm⟩ : ∃ u, smiles.filter (fun s => !(decide (s ∈ matched))) = u :=
    ⟨_, rfl⟩
  have hAll : dictLookup (dictUpdate d1 unmatchedKey um) unmatchedKey = some um :=
    dictLookup_update_self d1 unmatchedKey um
  have hD1 : ∀ kv : String × List String,
      kv ∈ dictUpdate d1 unmatchedKey um → kv.1 ≠ unmatchedKey → kv ∈ d1 :=
    fun kv hkv hne => (mem_dictUpdate_of_ne kv d1 unmatchedKey um hne).mp hkv
  have hD1' : ∀ kv : String × List String,
      kv ∈ d1 → kv.1 ≠ unmatchedKey → kv ∈ dictUpdate d1 unmatchedKey um :=
    fun kv hkv hne => (mem_dictUpdate_of_ne kv d1 unmatchedKey um hne).mpr hkv
  have hDm : ∀ kv : String × List String, kv ∈ d1 → kv.1 ≠ unmatchedKey → kv ∈ dm := by
    intro kv hkv hne
    rw [← hd1] at hkv
    exact (mem_dictUpdate_of_ne kv dm unmatchedKey [] hne).mp hkv
  have hResults : ∀ kv : String × List String, kv ∈ dm → kv ∈ results := by
    intro kv hkv
    rw [← hdm] at hkv
    rcases mem_foldl_update kv results [] hkv with h0 | h1
    · exact absurd h0 (List.not_mem_nil kv)
    · exact h1
  have hValSub : ∀ kv : String × List String, kv ∈ results → ∀ q, q ∈ kv.2 → q ∈ smiles := by
    intro kv hkv q hq
    rw [← hres] at hkv
    obtain ⟨f, _, rfl⟩ := List.mem_map.mp hkv
    exact (matchLoop_sublist (memOf f) smiles).subset hq
  have hMatched : ∀ q, q ∈ matched ↔ ∃ kv : String × List String, kv ∈ d1 ∧ q ∈ kv.2 := by
    intro q
    rw [← hmatched]
    constructor
    · intro hq
      obtain ⟨s, hs, hqs⟩ := List.mem_flatten.mp hq
      obtain ⟨kv, hkv, rfl⟩ := List.mem_map.mp hs
      exact ⟨kv, hkv, hqs⟩
    · intro hx
      obtain ⟨kv, hkv, hq2⟩ := hx
      exact List.mem_flatten.mpr ⟨kv.2, List.mem_map.mpr ⟨kv, hkv, rfl⟩, hq2⟩
  have hUkNil : ∀ kv : String × List String,
      kv ∈ d1 → kv.1 = unmatchedKey → kv.2 = [] := by
    intro kv hkv hk
    rw [← hd1] at hkv
    rw [eq_of_mem_dictUpdate_key kv dm unmatchedKey [] hkv hk]
  have hUm : ∀ q, q ∈ um ↔ q ∈ smiles ∧ ¬q ∈ matched := by
    intro q
    rw [← humm]
    simp [List.mem_filter]
  refine ⟨dictUpdate d1 unmatchedKey um, ?_, ?_, ?_, ⟨um, hAll, ?_⟩⟩
  · simp only [find_matches, hff, Bool.false_eq_true, if_false, if_true]
    rw [hres, hdm, hd1, hmatched, humm]
  · intro q
    constructor
    · intro hq
      by_cases hqm : q ∈ matched
      · obtain ⟨kv, hkv, hq2⟩ := (hMatched q).mp hqm
        by_cases hk : kv.1 = unmatchedKey
        · rw [hUkNil kv hkv hk] at hq2
          exact absurd hq2 (List.not_mem_nil q)
        · exact Or.inl ⟨kv, hD1' kv hkv hk, hk, hq2⟩
      · exact Or.inr ⟨um, hAll, (hUm q).mpr ⟨hq, hqm⟩⟩
    · intro hq
      rcases hq with ⟨kv, hkv, hne, hq2⟩ | ⟨u, hu, hqu⟩
      · exact hValSub kv (hResults kv (hDm kv (hD1 kv hkv hne) hne)) q hq2
      · have huv : u = um := by
          have := hAll.symm.trans hu
          exact (Option.some.injEq _ _ ▸ this).symm
        rw [huv] at hqu
        exact ((hUm q).mp hqu).1
  · intro q kv u hkv hne hu hboth
    have huv : u = um := by
      have := hAll.symm.trans hu
      exact (Option.some.injEq _ _ ▸ this).symm
    have hqm : q ∈ matched := (hMatched q).mpr ⟨kv, hD1 kv hkv hne, hboth.1⟩
    have hqu : q ∈ um := huv ▸ hboth.2
    exact ((hUm q).mp hqu).2 hqm
  · rw [← humm]
    exact List.filter_sublist smiles

/-- C7, witness at the spec's scenario: structures `A.bloom`, `B.bloom`
matching `CCO` resp. `CCN`, queries `CCO, CCN, CCC`. -/
theorem c7_witness :
    ∃ D, (find_matches
        (fun p s => (p == "A.bloom" && s == "CCO") || (p == "B.bloom" && s == "CCN"))
        ["A.bloom", "B.bloom"] ["CCO", "CCN", "CCC"] true).2 = Except.ok D ∧
      (∀ q, q ∈ (["CCO", "CCN", "CCC"] : List String) ↔
        ((∃ kv, kv ∈ D ∧ kv.1 ≠ unmatchedKey ∧ q ∈ kv.2) ∨
          ∃ u, dictLookup D unmatchedKey = some u ∧ q ∈ u)) ∧
      (∀ q kv u, kv ∈ D → kv.1 ≠ unmatchedKey →
        dictLookup D unmatchedKey = some u → ¬(q ∈ kv.2 ∧ q ∈ u)) ∧
      (∃ u, dictLookup D unmatchedKey = some u ∧
        u.Sublist ["CCO", "CCN", "CCC"]) :=
  c7_theorem
    (fun p s => (p == "A.bloom" && s == "CCO") || (p == "B.bloom" && s == "CCN"))
    ["A.bloom", "B.bloom"] ["CCO", "CCN", "CCC"] (by decide)

/-! ## Claim C8 (confirmed) -/

/-- C8: when the structure glob expands to zero files the run fails with
the empty-input error, no task is dispatched (the dispatched list is
empty), and no output artifact is produced (the outcome carries no dict to
write). -/
theorem c8_theorem (memOf : String → String → Bool) (smiles : List String)
    (include_unmatched : Bool) :
    find_matches memOf [] smiles include_unmatched =
      ([], Except.error PyErr.emptyInputError) := rfl

/-! ## Lemmas for the merged key set (claim C9) -/

theorem find?_eq_head?_filter (p : String → Bool) :
    ∀ l : List String, l.find? p = (l.filter p).head? := by
  intro l
  induction l with
  | nil => rfl
  | cons x xs ih =>
    by_cases hx : p x
    · rw [List.find?_cons_of_pos _ hx, List.filter_cons_of_pos hx, List.head?_cons]
    · rw [List.find?_cons_of_neg _ hx, List.filter_cons_of_neg hx, ih]

theorem find?_reverse_eq (p : String → Bool) (l : List String) :
    l.reverse.find? p = (l.filter p).getLast? := by
  rw [find?_eq_head?_filter p l.reverse, List.filter_reverse,
    ← List.getLast?_eq_head?_reverse]

theorem find?_map_key (memOf : String → String → Bool) (smiles : List String)
    (key : String) :
    ∀ l : List String,
      ((l.map fun f => bloom_match (memOf f) f smiles).find?
          fun kv => decide (kv.1 = key)) =
        Option.map (fun f => bloom_match (memOf f) f smiles)
          (l.find? fun f => decide (pyStem f = key)) := by
  intro l
  induction l with
  | nil => rfl
  | cons x xs ih =>
    rw [List.map_cons]
    by_cases hx : pyStem x = key
    · rw [List.find?_cons_of_pos _ (by simp [bloom_match, hx]),
        List.find?_cons_of_pos _ (by simp [hx])]
      rfl
    · rw [List.find?_cons_of_neg _ (by simp [bloom_match, hx]),
        List.find?_cons_of_neg _ (by simp [hx]), ih]

/-! ## Claim C9 (corrected) -/

/-- C9, counterexample: paths `unmatched.bloom` and `x/unmatched.bloom`
share the identity `"unmatched"`, which is also the reserved key.  The
later path's matches are `[]`, yet with `include_unmatched = true` the
retained value at `"unmatched"` is the complement list `["a"]` — the
retained value is *not* that of the later path. -/
theorem c9_counterexample :
    (List.filter (fun q => decide (pyStem q = pyStem "x/unmatched.bloom"))
        ["unmatched.bloom", "x/unmatched.bloom"]).getLast? =
      some "x/unmatched.bloom" ∧
    matchLoop ((fun p (_ : String) => p == "unmatched.bloom") "x/unmatched.bloom")
      ["a"] = [] ∧
    (find_matches (fun p _ => p == "unmatched.bloom")
        ["unmatched.bloom", "x/unmatched.bloom"] ["a"] true).2 =
      Except.ok [("unmatched", ["a"])] ∧
    dictLookup [("unmatched", ["a"])] (pyStem "x/unmatched.bloom") = some ["a"] ∧
    (["a"] : List String) ≠ ([] : List String) := by decide

/-- C9, amended: for every run the key set of the merged mapping is
exactly the set of base-name identities of the input paths, plus the
reserved `"unmatched"` key when requested (present even if empty); and for
every identity — other than the reserved key when unmatched output is
requested — the retained value is that of the path occurring later in the
input path list (under the sequential embedding of `pool.map` the
overwrite is deterministic in input order, not completion order). -/
theorem c9_theorem (memOf : String → String → Bool) (ff : List String)
    (smiles : List String) (inc : Bool) (h : ff ≠ []) :
    ∃ D, (find_matches memOf ff smiles inc).2 = Except.ok D ∧
      (∀ k, (dictLookup D k).isSome = true ↔
        (k ∈ ff.map pyStem ∨ (inc = true ∧ k = unmatchedKey))) ∧
      (∀ p, p ∈ ff → (inc = true → pyStem p ≠ unmatchedKey) →
        (ff.filter fun q => decide (pyStem q = pyStem p)).getLast? = some p →
        dictLookup D (pyStem p) = some (matchLoop (memOf p) smiles)) := by
  have hff : ff.isEmpty = false := List.isEmpty_eq_false.mpr h
  obtain ⟨results, hres⟩ : ∃ r, ff.map (fun f => bloom_match (memOf f) f smiles) = r :=
    ⟨_, rfl⟩
  obtain ⟨dm, hdm⟩ : ∃ d,
      results.foldl (fun acc kv => dictUpdate acc kv.1 kv.2)
        ([] : List (String × List String)) = d := ⟨_, rfl⟩
  have hLdm : ∀ k : String, dictLookup dm k =
      Option.map (fun f => matchLoop (memOf f) smiles)
        (ff.reverse.find? fun f => decide (pyStem f = k)) := by
    intro k
    rw [← hdm, foldl_update_lookup k results [], ← hres, ← List.map_reverse,
      find?_map_key memOf smiles k ff.reverse]
    cases hfind : ff.reverse.find? (fun f => decide (pyStem f = k)) with
    | some f => rfl
    | none => rfl
  have hKdm : ∀ k, (dictLookup dm k).isSome = true ↔ k ∈ ff.map pyStem := by
    intro k
    rw [hLdm k]
    constructor
    · intro hk
      cases hfind : ff.reverse.find? (fun f => decide (pyStem f = k)) with
      | none => rw [hfind] at hk; simp at hk
      | some f =>
        have hf := List.find?_some hfind
        have hmem := List.mem_of_find?_eq_some hfind
        exact List.mem_map.mpr ⟨f, List.mem_reverse.mp hmem, of_decide_eq_true hf⟩
    · intro hk
      obtain ⟨f, hf, rfl⟩ := List.mem_map.mp hk
      have hsome : (ff.reverse.find? fun f' => decide (pyStem f' = pyStem f)).isSome = true :=
        List.find?_isSome.mpr ⟨f, List.mem_reverse.mpr hf, by simp⟩
      cases hfind : ff.reverse.find? (fun f' => decide (pyStem f' = pyStem f)) with
      | none => rw [hfind] at hsome; simp at hsome
      | some f' => rfl
  have hVdm : ∀ p, p ∈ ff →
      (ff.filter fun q => decide (pyStem q = pyStem p)).getLast? = some p →
      dictLookup dm (pyStem p) = some (matchLoop (memOf p) smiles) := by
    intro p _ hlast
    rw [hLdm (pyStem p), find?_reverse_eq, hlast]
    rfl
  cases inc with
  | false =>
    refine ⟨dm, ?_, ?_, ?_⟩
    · simp only [find_matches, hff, Bool.false_eq_true, if_false]
      rw [hres, hdm]
    · intro k
      rw [hKdm k]
      simp
    · intro p hp _ hlast
      exact hVdm p hp hlast
  | true =>
    obtain ⟨d1, hd1⟩ : ∃ d, dictUpdate dm unmatchedKey [] = d := ⟨_, rfl⟩
    obtain ⟨matched, hmatched⟩ : ∃ m, (d1.map Prod.snd).flatten = m := ⟨_, rfl⟩
    obtain ⟨um, humm⟩ : ∃ u, smiles.filter (fun s => !(decide (s ∈ matched))) = u :=
      ⟨_, rfl⟩
    refine ⟨dictUpdate d1 unmatchedKey um, ?_, ?_, ?_⟩
    · simp only [find_matches, hff, Bool.false_eq_true, if_false, if_true]
      rw [hres, hdm, hd1, hmatched, humm]
    · intro k
      by_cases hk : k = unmatchedKey
      · subst hk
        rw [dictLookup_update_self]
        simp
      · rw [dictLookup_update_ne d1 unmatchedKey um k hk, ← hd1,
          dictLookup_update_ne dm unmatchedKey [] k hk, hKdm k]
        constructor
        · exact Or.inl
        · intro hor
          rcases hor with h1 | h1
          · exact h1
          · exact absurd h1.2 hk
    · intro p hp hinc hlast
      have hne : pyStem p ≠ unmatchedKey := hinc rfl
      rw [dictLookup_update_ne d1 unmatchedKey um _ hne, ← hd1,
        dictLookup_update_ne dm unmatchedKey [] _ hne]
      exact hVdm p hp hlast

/-- C9, witness: two paths with the shared ordinary identity `"A"`; only
the earlier one matches `"a"`, and the retained value is the later path's
(empty) match list. -/
theorem c9_witness :
    ∃ D, (find_matches (fun p _ => p == "x/A.bloom")
        ["x/A.bloom", "y/A.bloom"] ["a"] false).2 = Except.ok D ∧
      (∀ k, (dictLookup D k).isSome = true ↔
        (k ∈ (["x/A.bloom", "y/A.bloom"] : List String).map pyStem ∨
          (false = true ∧ k = unmatchedKey))) ∧
      (∀ p, p ∈ (["x/A.bloom", "y/A.bloom"] : List String) →
        (false = true → pyStem p ≠ unmatchedKey) →
        ((["x/A.bloom", "y/A.bloom"] : List String).filter
            fun q => decide (pyStem q = pyStem p)).getLast? = some p →
        dictLookup D (pyStem p) =
          some (matchLoop ((fun p' (_ : String) => p' == "x/A.bloom") p) ["a"])) :=
  c9_theorem (fun p _ => p == "x/A.bloom") ["x/A.bloom", "y/A.bloom"] ["a"] false
    (by decide)

/-! ## Soundness of the embedded regex search

Whatever `re.search` returns is a substring of its input and lies in the
pattern's language. -/

theorem mem_descRange (n a : ℕ) (h : a ∈ descRange n) : a ≤ n := by
  unfold descRange at h
  rw [List.mem_reverse] at h
  exact Nat.lt_succ_iff.mp (List.mem_range.mp h)

theorem mem_descRangePos (n c : ℕ) (h : c ∈ descRangePos n) : 1 ≤ c ∧ c ≤ n := by
  unfold descRangePos at h
  obtain ⟨x, hx, rfl⟩ := List.mem_map.mp h
  rw [List.mem_reverse] at hx
  have := List.mem_range.mp hx
  omega

theorem take_all_of_le_run (p : Char → Bool) :
    ∀ (l : List Char) (a : ℕ), a ≤ (l.takeWhile p).length →
      ∀ c ∈ l.take a, p c = true := by
  intro l
  induction l with
  | nil => intro a _ c hc; simp at hc
  | cons x xs ih =>
    intro a ha c hc
    cases a with
    | zero => simp at hc
    | succ a' =>
      by_cases hx : p x = true
      · rw [List.takeWhile_cons_of_pos hx] at ha
        simp only [List.length_cons, Nat.succ_le_succ_iff] at ha
        rw [List.take_succ_cons] at hc
        rcases List.mem_cons.mp hc with rfl | hc'
        · exact hx
        · exact ih a' ha c hc'
      · rw [List.takeWhile_cons_of_neg hx] at ha
        simp at ha

theorem coreMatch_sound (cs tok : List Char) (h : coreMatch cs = some tok) :
    (∃ tail, cs = tok ++ tail) ∧
    ∃ d1 dots d2 suf, tok = d1 ++ dots ++ d2 ++ [suf] ∧
      (∀ c ∈ d1, pyIsDigit c = true) ∧ (∀ c ∈ dots, c = '.') ∧
      d2 ≠ [] ∧ (∀ c ∈ d2, pyIsDigit c = true) ∧ isSuffixChar suf = true := by
  unfold coreMatch at h
  obtain ⟨a, ha, h⟩ := List.exists_of_findSome?_eq_some h
  obtain ⟨b, hb, h⟩ := List.exists_of_findSome?_eq_some h
  obtain ⟨c, hc, h⟩ := List.exists_of_findSome?_eq_some h
  have ha' : a ≤ digitRun cs := mem_descRange _ _ ha
  have hb' : b ≤ dotRun (cs.drop a) := mem_descRange _ _ hb
  obtain ⟨hc1, hc2⟩ := mem_descRangePos _ _ hc
  unfold digitRun at ha' hc2
  unfold dotRun at hb'
  cases heq : ((cs.drop a).drop b).drop c with
  | nil => rw [heq] at h; exact absurd h (by simp)
  | cons suf tail2 =>
    rw [heq] at h
    dsimp only [] at h
    by_cases hsuf : isSuffixChar suf = true
    · rw [if_pos hsuf] at h
      injection h with htok
      have hlen : c < ((cs.drop a).drop b).length := by
        have hd : (((cs.drop a).drop b).drop c).length =
            ((cs.drop a).drop b).length - c := List.length_drop c _
        rw [heq] at hd
        simp only [List.length_cons] at hd
        omega
      refine ⟨⟨tail2, ?_⟩,
        cs.take a, (cs.drop a).take b, ((cs.drop a).drop b).take c, suf,
        htok.symm,
        take_all_of_le_run pyIsDigit cs a ha',
        fun x hx => of_decide_eq_true
          (take_all_of_le_run (fun ch => decide (ch = '.')) (cs.drop a) b hb' x hx),
        ?_,
        take_all_of_le_run pyIsDigit ((cs.drop a).drop b) c hc2,
        hsuf⟩
      · rw [← htok]
        calc cs = cs.take a ++ cs.drop a := (List.take_append_drop a cs).symm
          _ = cs.take a ++ ((cs.drop a).take b ++ (cs.drop a).drop b) := by
              rw [List.take_append_drop b (cs.drop a)]
          _ = cs.take a ++ ((cs.drop a).take b ++
              (((cs.drop a).drop b).take c ++ ((cs.drop a).drop b).drop c)) := by
              rw [List.take_append_drop c ((cs.drop a).drop b)]
          _ = cs.take a ++ ((cs.drop a).take b ++
              (((cs.drop a).drop b).take c ++ (suf :: tail2))) := by rw [heq]
          _ = (cs.take a ++ (cs.drop a).take b ++
              ((cs.drop a).drop b).take c ++ [suf]) ++ tail2 := by
              simp [List.append_assoc]
      · have hlen2 : (((cs.drop a).drop b).take c).length = c := by
          rw [List.length_take]; omega
        intro hnil
        rw [hnil] at hlen2
        simp at hlen2
        omega
    · rw [if_neg hsuf] at h
      exact absurd h (by simp)

theorem matchHere_sound (cs tok : List Char) (h : matchHere cs = some tok) :
    (∃ tail, cs = tok ++ tail) ∧ MatchesPattern tok := by
  unfold matchHere at h
  cases cs with
  | nil =>
    obtain ⟨hpre, d1, dots, d2, suf, htok, h1, h2, h3, h4, h5⟩ :=
      coreMatch_sound [] tok h
    exact ⟨hpre, [], d1, dots, d2, suf, by simpa using htok, Or.inl rfl,
      h1, h2, h3, h4, h5⟩
  | cons ch rest =>
    dsimp only [] at h
    by_cases hsign : ch = '-' ∨ ch = '+'
    · rw [if_pos hsign] at h
      cases hcore : coreMatch rest with
      | some core =>
        rw [hcore] at h
        injection h with h
        obtain ⟨⟨tail, htail⟩, d1, dots, d2, suf, hcoreeq, h1, h2, h3, h4, h5⟩ :=
          coreMatch_sound rest core hcore
        refine ⟨⟨tail, by rw [← h, htail]; rfl⟩,
          [ch], d1, dots, d2, suf, by rw [← h, hcoreeq]; rfl, ?_,
          h1, h2, h3, h4, h5⟩
        rcases hsign with rfl | rfl
        · exact Or.inr (Or.inl rfl)
        · exact Or.inr (Or.inr rfl)
      | none =>
        rw [hcore] at h
        obtain ⟨hpre, d1, dots, d2, suf, htok, h1, h2, h3, h4, h5⟩ :=
          coreMatch_sound _ tok h
        exact ⟨hpre, [], d1, dots, d2, suf, by simpa using htok, Or.inl rfl,
          h1, h2, h3, h4, h5⟩
    · rw [if_neg hsign] at h
      obtain ⟨hpre, d1, dots, d2, suf, htok, h1, h2, h3, h4, h5⟩ :=
        coreMatch_sound _ tok h
      exact ⟨hpre, [], d1, dots, d2, suf, by simpa using htok, Or.inl rfl,
        h1, h2, h3, h4, h5⟩

theorem reSearch_sound (s tok : List Char) (h : reSearch s = some tok) :
    OccursIn tok s ∧ MatchesPattern tok := by
  induction s with
  | nil =>
    unfold reSearch at h
    obtain ⟨⟨tail, htail⟩, hm⟩ := matchHere_sound [] tok h
    exact ⟨⟨[], tail, by simpa using htail⟩, hm⟩
  | cons c rest ih =>
    unfold reSearch at h
    cases hm : matchHere (c :: rest) with
    | some tok' =>
      rw [hm] at h
      injection h with h
      rw [h] at hm
      obtain ⟨⟨tail, htail⟩, hmp⟩ := matchHere_sound _ _ hm
      exact ⟨⟨[], tail, by simpa using htail⟩, hmp⟩
    | none =>
      rw [hm] at h
      obtain ⟨⟨pre, post, hocc⟩, hmp⟩ := ih h
      exact ⟨⟨c :: pre, post, by simp [hocc]⟩, hmp⟩

/-! ## Claim C5 (confirmed) -/

/-- C5: on every input containing no substring in the pattern's language,
extraction fails with the documented not-found error and returns no
value. -/
theorem c5_theorem (s : List Char)
    (h : ∀ t, OccursIn t s → ¬MatchesPattern t) :
    detect_humanized_number s = Except.error PyErr.notFoundError := by
  unfold detect_humanized_number
  cases hr : reSearch s with
  | none => rfl
  | some tok =>
    obtain ⟨hocc, hm⟩ := reSearch_sound s tok hr
    exact absurd hm (h tok hocc)

/-! ### Executable check backing the C5 witness -/

theorem dropWhile_append_of_all (p : Char → Bool) :
    ∀ (l₁ l₂ : List Char), (∀ c ∈ l₁, p c = true) →
      (l₁ ++ l₂).dropWhile p = l₂.dropWhile p := by
  intro l₁
  induction l₁ with
  | nil => intro l₂ _; rfl
  | cons x xs ih =>
    intro l₂ hall
    rw [List.cons_append, List.dropWhile_cons_of_pos (hall x (by simp))]
    exact ih l₂ fun c hc => hall c (by simp [hc])

theorem takeWhile_append_of_all (p : Char → Bool) :
    ∀ (l₁ l₂ : List Char), (∀ c ∈ l₁, p c = true) →
      (l₁ ++ l₂).takeWhile p = l₁ ++ l₂.takeWhile p := by
  intro l₁
  induction l₁ with
  | nil => intro l₂ _; rfl
  | cons x xs ih =>
    intro l₂ hall
    rw [List.cons_append, List.takeWhile_cons_of_pos (hall x (by simp)),
      ih l₂ fun c hc => hall c (by simp [hc]), List.cons_append]

theorem dropWhile_eq_nil_of_all (p : Char → Bool) :
    ∀ l : List Char, (∀ c ∈ l, p c = true) → l.dropWhile p = [] := by
  intro l
  induction l with
  | nil => intro _; rfl
  | cons x xs ih =>
    intro hall
    rw [List.dropWhile_cons_of_pos (hall x (by simp))]
    exact ih fun c hc => hall c (by simp [hc])

theorem digit_ne_dot (c : Char) (h : pyIsDigit c = true) : ¬c = '.' := by
  intro heq; rw [heq] at h; exact absurd h (by decide)

theorem coreB_of_parts (d1 dots d2 : List Char) (suf : Char)
    (hd1 : ∀ c ∈ d1, pyIsDigit c = true) (hdots : ∀ c ∈ dots, c = '.')
    (hd2ne : d2 ≠ []) (hd2 : ∀ c ∈ d2, pyIsDigit c = true)
    (hsuf : isSuffixChar suf = true) :
    coreB (d1 ++ dots ++ d2 ++ [suf]) = true := by
  unfold coreB
  have hassoc : d1 ++ dots ++ d2 ++ [suf] = (d1 ++ dots ++ d2) ++ [suf] := by
    simp [List.append_assoc]
  rw [hassoc, List.getLast?_concat]
  dsimp only []
  rw [List.dropLast_concat, hsuf]
  simp only [Bool.true_and]
  unfold bodyB
  cases dots with
  | nil =>
    have halld : ∀ c ∈ d1 ++ ([] : List Char) ++ d2, pyIsDigit c = true := by
      intro c hc
      simp only [List.append_nil] at hc
      rcases List.mem_append.mp hc with h1 | h1
      · exact hd1 c h1
      · exact hd2 c h1
    rw [dropWhile_eq_nil_of_all pyIsDigit _ halld,
      if_pos (show ([] : List Char).isEmpty = true from rfl)]
    have hne' : (d1 ++ ([] : List Char) ++ d2).isEmpty = false := by
      rw [List.isEmpty_eq_false]
      simp only [List.append_nil]
      intro hnil
      exact hd2ne (List.append_eq_nil.mp hnil).2
    rw [hne']
    rfl
  | cons dh dt =>
    have hd2cons : ∃ e d2', d2 = e :: d2' := by
      cases d2 with
      | nil => exact absurd rfl hd2ne
      | cons e d2' => exact ⟨e, d2', rfl⟩
    obtain ⟨e, d2', rfl⟩ := hd2cons
    have hdh : dh = '.' := hdots dh (by simp)
    have hdtall : ∀ c ∈ dt, c = '.' := fun c hc => hdots c (by simp [hc])
    have he : pyIsDigit e = true := hd2 e (by simp)
    have hdrop : (d1 ++ (dh :: dt) ++ (e :: d2')).dropWhile pyIsDigit =
        (dh :: dt) ++ (e :: d2') := by
      rw [List.append_assoc, dropWhile_append_of_all pyIsDigit d1 _ hd1]
      rw [List.cons_append, List.dropWhile_cons_of_neg]
      rw [hdh]; decide
    rw [hdrop]
    have hne2 : ¬(((dh :: dt) ++ (e :: d2')).isEmpty = true) := by
      rw [List.cons_append]; simp
    rw [if_neg hne2]
    have htake : ((dh :: dt) ++ (e :: d2')).takeWhile
        (fun c => decide (c = '.')) = dh :: dt := by
      rw [takeWhile_append_of_all _ (dh :: dt) _ ?side]
      case side =>
        intro c hc
        rcases List.mem_cons.mp hc with rfl | hc'
        · simp [hdh]
        · simp [hdtall c hc']
      rw [List.takeWhile_cons_of_neg, List.append_nil]
      simp [digit_ne_dot e he]
    have hdrop2 : ((dh :: dt) ++ (e :: d2')).dropWhile
        (fun c => decide (c = '.')) = e :: d2' := by
      rw [dropWhile_append_of_all _ (dh :: dt) _ ?side2]
      case side2 =>
        intro c hc
        rcases List.mem_cons.mp hc with rfl | hc'
        · simp [hdh]
        · simp [hdtall c hc']
      rw [List.dropWhile_cons_of_neg]
      simp [digit_ne_dot e he]
    rw [htake, hdrop2]
    simp only [List.isEmpty_cons, Bool.not_false, Bool.true_and]
    rw [List.all_eq_true]
    intro c hc
    exact hd2 c hc

theorem digit_not_sign (c : Char) (h : pyIsDigit c = true) :
    ¬c = '-' ∧ ¬c = '+' := by
  constructor <;> intro heq <;> rw [heq] at h <;> exact absurd h (by decide)

theorem matchesPatternB_of (t : List Char) (h : MatchesPattern t) :
    matchesPatternB t = true := by
  obtain ⟨sgn, d1, dots, d2, suf, htok, hsgn, hd1, hdots, hd2ne, hd2, hsuf⟩ := h
  have hcore := coreB_of_parts d1 dots d2 suf hd1 hdots hd2ne hd2 hsuf
  rcases hsgn with rfl | rfl | rfl
  · simp only [List.nil_append] at htok
    have hcons : ∃ c rest, d1 ++ dots ++ d2 ++ [suf] = c :: rest ∧
        (pyIsDigit c = true ∨ c = '.') := by
      cases d1 with
      | cons x xs =>
        exact ⟨x, xs ++ dots ++ d2 ++ [suf], by simp, Or.inl (hd1 x (by simp))⟩
      | nil =>
        cases dots with
        | cons y ys =>
          exact ⟨y, ys ++ d2 ++ [suf], by simp, Or.inr (hdots y (by simp))⟩
        | nil =>
          cases d2 with
          | nil => exact absurd rfl hd2ne
          | cons z zs =>
            exact ⟨z, zs ++ [suf], by simp, Or.inl (hd2 z (by simp))⟩
    obtain ⟨c, rest, hcr, hcd⟩ := hcons
    rw [htok, hcr]
    simp only [matchesPatternB]
    have hnotsign : ¬(c = '-' ∨ c = '+') := by
      rcases hcd with hdig | rfl
      · intro hor
        rcases hor with rfl | rfl <;> exact absurd hdig (by decide)
      · decide
    rw [if_neg hnotsign, ← hcr]
    exact hcore
  · rw [htok, List.singleton_append]
    show (if ('-' : Char) = '-' ∨ ('-' : Char) = '+' then
        coreB (d1 ++ dots ++ d2 ++ [suf])
      else coreB ('-' :: (d1 ++ dots ++ d2 ++ [suf]))) = true
    rw [if_pos (Or.inl rfl)]
    exact hcore
  · rw [htok, List.singleton_append]
    show (if ('+' : Char) = '-' ∨ ('+' : Char) = '+' then
        coreB (d1 ++ dots ++ d2 ++ [suf])
      else coreB ('+' :: (d1 ++ dots ++ d2 ++ [suf]))) = true
    rw [if_pos (Or.inr rfl)]
    exact hcore

theorem noMatchSubB_sound (s : List Char) (h : noMatchSubB s = true) :
    ∀ t, OccursIn t s → ¬MatchesPattern t := by
  intro t hocc hm
  obtain ⟨pre, post, hs⟩ := hocc
  have hslen : s.length = pre.length + (t.length + post.length) := by
    rw [hs]; simp [List.length_append]
  have hi : pre.length ∈ List.range (s.length + 1) := List.mem_range.mpr (by omega)
  have hj : t.length ∈ List.range (s.length + 1) := List.mem_range.mpr (by omega)
  unfold noMatchSubB at h
  have h1 := List.all_eq_true.mp h _ hi
  have h2 := List.all_eq_true.mp h1 _ hj
  have hsub : (s.drop pre.length).take t.length = t := by
    have hs' : s = pre ++ (t ++ post) := by rw [hs, List.append_assoc]
    rw [hs', List.drop_left, List.take_left]
  rw [hsub, matchesPatternB_of t hm] at h2
  exact absurd h2 (by decide)

/-- C5, witness: `"hello world"` contains no matching substring, and
detection fails with the not-found error on it. -/
theorem c5_witness :
    detect_humanized_number "hello world".toList =
      Except.error PyErr.notFoundError :=
  c5_theorem "hello world".toList
    (noMatchSubB_sound "hello world".toList (by decide))

/-! ## Evaluating the conversion step on detected tokens (claim C4) -/

theorem dropWhile_eq_self_of_none (p : Char → Bool) (l : List Char)
    (h : ∀ c ∈ l, p c = false) : l.dropWhile p = l := by
  cases l with
  | nil => rfl
  | cons x xs =>
    rw [List.dropWhile_cons_of_neg (by simp [h x (List.mem_cons_self x xs)])]

theorem pyStrip_eq_self (l : List Char) (h : ∀ c ∈ l, pyIsSpace c = false) :
    pyStrip l = l := by
  unfold pyStrip
  rw [dropWhile_eq_self_of_none pyIsSpace l h,
    dropWhile_eq_self_of_none pyIsSpace l.reverse
      (fun c hc => h c (List.mem_reverse.mp hc)),
    List.reverse_reverse]

theorem pyUpper_of_digit (c : Char) (h : pyIsDigit c = true) : pyUpper c = c := by
  unfold pyUpper
  have h' : ¬(97 ≤ c.toNat ∧ c.toNat ≤ 122) := by
    simp only [pyIsDigit, decide_eq_true_eq] at h
    omega
  rw [if_neg h']

theorem pyIsSpace_of_digit (c : Char) (h : pyIsDigit c = true) :
    pyIsSpace c = false := by
  simp only [pyIsDigit, decide_eq_true_eq] at h
  simp only [pyIsSpace, decide_eq_false_iff_not]
  omega

theorem map_eq_self_of (f : Char → Char) (l : List Char)
    (h : ∀ c ∈ l, f c = c) : l.map f = l := by
  induction l with
  | nil => rfl
  | cons x xs ih =>
    rw [List.map_cons, h x (by simp), ih fun c hc => h c (by simp [hc])]

theorem parseMagnitude_nonneg (cs : List Char) (d : Dec10)
    (h : parseMagnitude cs = some d) : 0 ≤ d.1 := by
  unfold parseMagnitude at h
  split at h
  · split at h
    · exact absurd h (by simp)
    · injection h with h
      rw [← h]
      exact Int.natCast_nonneg _
  · split at h
    · injection h with h
      rw [← h]
      positivity
    · exact absurd h (by simp)

theorem pyTrunc_nonneg (d : Dec10) (h : 0 ≤ d.1) : 0 ≤ pyTrunc d := by
  unfold pyTrunc
  rw [if_neg (not_lt.mpr h)]
  exact Int.natCast_nonneg _

theorem suffixLoop_concat (pre : List Char) (SUF : Char)
    (h : SUF = 'K' ∨ SUF = 'M' ∨ SUF = 'B') :
    suffixLoop (pre ++ [SUF]) multipliers =
      some (match pythonFloat pre with
        | some dd => Except.ok (pyTrunc (dd.1 *
            (if SUF = 'K' then 1000
             else if SUF = 'M' then 1000000 else 1000000000), dd.2))
        | none => Except.error PyErr.floatValueError) := by
  rcases h with rfl | rfl | rfl <;>
    simp [suffixLoop, multipliers, List.getLast?_concat, List.dropLast_concat]

theorem pythonFloat_cons_eval (c : Char) (r : List Char)
    (hstrip : pyStrip (c :: r) = c :: r) (h1 : ¬c = '-') (h2 : ¬c = '+') :
    pythonFloat (c :: r) = parseMagnitude (c :: r) := by
  unfold pythonFloat
  rw [hstrip]
  show (if c = '-' then (parseMagnitude r).map (fun d => (-d.1, d.2))
    else if c = '+' then parseMagnitude r
    else parseMagnitude (c :: r)) = parseMagnitude (c :: r)
  rw [if_neg h1, if_neg h2]

theorem pythonFloat_plus_eval (r : List Char)
    (hstrip : pyStrip ('+' :: r) = '+' :: r) :
    pythonFloat ('+' :: r) = parseMagnitude r := by
  unfold pythonFloat
  rw [hstrip]
  show (if ('+' : Char) = '-' then (parseMagnitude r).map (fun d => (-d.1, d.2))
    else if ('+' : Char) = '+' then parseMagnitude r
    else parseMagnitude ('+' :: r)) = parseMagnitude r
  rw [if_neg (by decide), if_pos rfl]

/-! ## Claim C4 (corrected) -/

/-- C4, counterexample: on `"-5K"` extraction and numeric conversion both
succeed, yet the resulting hint is −5000 < 0 — the detector's `[-+]?`
admits a sign. -/
theorem c4_counterexample :
    extractSizeHint "-5K".toList = Except.ok (-5000) ∧
    ¬((0 : ℤ) ≤ -5000) := by decide

/-- C4, amended: whenever extraction and numeric conversion both succeed,
the resulting SizeHint is an integer, and it is ≥ 0 whenever the extracted
token does not begin with a minus sign; a leading minus yields a negative
hint (for example `"-5K"` yields −5000). -/
theorem c4_theorem (s tok : List Char) (n : ℤ)
    (hdet : detect_humanized_number s = Except.ok tok)
    (hhead : tok.head? ≠ some '-')
    (hparse : parse_humanized_string tok = Except.ok n) : 0 ≤ n := by
  have hre : reSearch s = some tok := by
    unfold detect_humanized_number at hdet
    cases hr : reSearch s with
    | some t =>
      rw [hr] at hdet
      dsimp only [] at hdet
      injection hdet with ht
      rw [ht]
    | none => rw [hr] at hdet; exact absurd hdet (by simp)
  obtain ⟨-, hm⟩ := reSearch_sound s tok hre
  obtain ⟨sgn, d1, dots, d2, suf, htok, hsgn, hd1, hdots, hd2ne, hd2, hsuf⟩ := hm
  have hsgn' : sgn = [] ∨ sgn = ['+'] := by
    rcases hsgn with rfl | rfl | rfl
    · exact Or.inl rfl
    · exfalso; apply hhead; rw [htok]; rfl
    · exact Or.inr rfl
  have hsufor : suf = 'k' ∨ suf = 'K' ∨ suf = 'm' ∨ suf = 'M' ∨
      suf = 'b' ∨ suf = 'B' := of_decide_eq_true hsuf
  have hns_sgn : ∀ c ∈ sgn, pyIsSpace c = false := by
    intro c hc
    rcases hsgn' with rfl | rfl
    · simp at hc
    · simp at hc; rw [hc]; decide
  have hns_d1 : ∀ c ∈ d1, pyIsSpace c = false :=
    fun c hc => pyIsSpace_of_digit c (hd1 c hc)
  have hns_dots : ∀ c ∈ dots, pyIsSpace c = false := by
    intro c hc; rw [hdots c hc]; decide
  have hns_d2 : ∀ c ∈ d2, pyIsSpace c = false :=
    fun c hc => pyIsSpace_of_digit c (hd2 c hc)
  have hnospace : ∀ c ∈ tok, pyIsSpace c = false := by
    rw [htok]
    intro c hc
    simp only [List.mem_append, List.mem_singleton] at hc
    rcases hc with (((hc | hc) | hc) | hc) | rfl
    · exact hns_sgn c hc
    · exact hns_d1 c hc
    · exact hns_dots c hc
    · exact hns_d2 c hc
    · rcases hsufor with rfl | rfl | rfl | rfl | rfl | rfl <;> decide
  have hstriptok : pyStrip tok = tok := pyStrip_eq_self tok hnospace
  have hSUF : pyUpper suf = 'K' ∨ pyUpper suf = 'M' ∨ pyUpper suf = 'B' := by
    rcases hsufor with rfl | rfl | rfl | rfl | rfl | rfl
    · exact Or.inl (by decide)
    · exact Or.inl (by decide)
    · exact Or.inr (Or.inl (by decide))
    · exact Or.inr (Or.inl (by decide))
    · exact Or.inr (Or.inr (by decide))
    · exact Or.inr (Or.inr (by decide))
  have hmapped : (pyStrip tok).map pyUpper =
      (sgn ++ (d1 ++ (dots ++ d2))) ++ [pyUpper suf] := by
    rw [hstriptok, htok]
    simp only [List.map_append, List.map_cons, List.map_nil]
    rw [map_eq_self_of pyUpper sgn (by
        intro c hc
        rcases hsgn' with rfl | rfl
        · simp at hc
        · simp at hc; rw [hc]; decide),
      map_eq_self_of pyUpper d1 (fun c hc => pyUpper_of_digit c (hd1 c hc)),
      map_eq_self_of pyUpper dots (by intro c hc; rw [hdots c hc]; decide),
      map_eq_self_of pyUpper d2 (fun c hc => pyUpper_of_digit c (hd2 c hc))]
    simp [List.append_assoc]
  have hnospace_pre : ∀ c ∈ sgn ++ (d1 ++ (dots ++ d2)), pyIsSpace c = false := by
    intro c hc
    simp only [List.mem_append] at hc
    rcases hc with hc | hc | hc | hc
    · exact hns_sgn c hc
    · exact hns_d1 c hc
    · exact hns_dots c hc
    · exact hns_d2 c hc
  unfold parse_humanized_string at hparse
  rw [hmapped, suffixLoop_concat _ _ hSUF] at hparse
  dsimp only [] at hparse
  have hMpos : (0 : ℤ) ≤ (if pyUpper suf = 'K' then 1000
      else if pyUpper suf = 'M' then 1000000 else 1000000000) := by
    split_ifs <;> norm_num
  rcases hsgn' with rfl | rfl
  · simp only [List.nil_append] at hparse hnospace_pre
    have hcons : ∃ c rest, d1 ++ (dots ++ d2) = c :: rest ∧
        (pyIsDigit c = true ∨ c = '.') := by
      cases d1 with
      | cons x xs =>
        exact ⟨x, xs ++ (dots ++ d2), by simp, Or.inl (hd1 x (by simp))⟩
      | nil =>
        cases dots with
        | cons y ys =>
          exact ⟨y, ys ++ d2, by simp, Or.inr (hdots y (by simp))⟩
        | nil =>
          cases d2 with
          | nil => exact absurd rfl hd2ne
          | cons z zs => exact ⟨z, zs, by simp, Or.inl (hd2 z (by simp))⟩
    obtain ⟨c, rest, hcr, hcd⟩ := hcons
    rw [hcr] at hparse hnospace_pre
    have hcsign : ¬c = '-' ∧ ¬c = '+' := by
      rcases hcd with hdig | rfl
      · exact digit_not_sign c hdig
      · exact ⟨by decide, by decide⟩
    rw [pythonFloat_cons_eval c rest (pyStrip_eq_self _ hnospace_pre)
      hcsign.1 hcsign.2] at hparse
    cases hpm : parseMagnitude (c :: rest) with
    | none => rw [hpm] at hparse; exact absurd hparse (by simp)
    | some dd =>
      rw [hpm] at hparse
      dsimp only [] at hparse
      injection hparse with hn
      rw [← hn]
      exact pyTrunc_nonneg _ (mul_nonneg (parseMagnitude_nonneg _ _ hpm) hMpos)
  · rw [List.singleton_append] at hparse hnospace_pre
    rw [pythonFloat_plus_eval _ (pyStrip_eq_self _ hnospace_pre)] at hparse
    cases hpm : parseMagnitude (d1 ++ (dots ++ d2)) with
    | none => rw [hpm] at hparse; exact absurd hparse (by simp)
    | some dd =>
      rw [hpm] at hparse
      dsimp only [] at hparse
      injection hparse with hn
      rw [← hn]
      exact pyTrunc_nonneg _ (mul_nonneg (parseMagnitude_nonneg _ _ hpm) hMpos)

/-- C4, witness: `"128K"` is detected as itself, does not begin with a
minus sign, converts to 128000, and the theorem yields 0 ≤ 128000. -/
theorem c4_witness :
    detect_humanized_number "128K".toList = Except.ok "128K".toList ∧
    parse_humanized_string "128K".toList = Except.ok 128000 ∧
    (0 : ℤ) ≤ 128000 :=
  ⟨by decide, by decide,
    c4_theorem "128K".toList "128K".toList 128000 (by decide) (by decide)
      (by decide)⟩

/-! ## Claim C10 (confirmed) -/

/-- C10: on `"file_1..5M.txt"` the detector finds the token `"1..5M"`
(its pattern allows repeated dots), but numeric conversion of that token
fails — `float("1..5")` raises — and the resulting error is neither the
documented not-found error nor the documented format error. -/
theorem c10_theorem :
    detect_humanized_number "file_1..5M.txt".toList = Except.ok "1..5M".toList ∧
    parse_humanized_string "1..5M".toList = Except.error PyErr.floatValueError ∧
    extractSizeHint "file_1..5M.txt".toList = Except.error PyErr.floatValueError ∧
    PyErr.floatValueError ≠ PyErr.notFoundError ∧
    PyErr.floatValueError ≠ PyErr.formatError := by
  decide

end Fruitfly
